import Mathlib

/-!
Verification development for the MCP framework (TypeScript repository
`mcp-main`).  The definitions below are a shallow embedding of the
repository's source files:

* `src/src/client/mcp-client.ts`   — the `MCPServer` endpoint (dispatch,
  registries, pending-request table, shutdown);
* `src/src/transport/stdio.ts`     — the newline-delimited stream reader;
* `src/src/validation/schema-validator.ts` — the tool-input validator
  (delegating to the external `ajv` library, modelled from the spec's
  stated JSON-Schema subset);
* `src/src/errors/mcp-errors.ts`   — error codes and error payloads;
* `src/src/middleware/auth.ts`     — the authentication middleware.

JavaScript `undefined` is modelled as `Option.none`; JavaScript truthiness
of values that can reach a boolean position is modelled explicitly
(`jsTruthy`, `jsTruthyOpt`, `jsTruthyStr`).  Promise-returning handlers are
modelled as functions into `Except String _` (resolution or rejection with
an error message).
-/

/-- JSON values.  Numbers are modelled as integers: every numeric literal
the claims exercise is integral, and no claim depends on non-integral
arithmetic. -/
inductive Json where
  | null : Json
  | bool : Bool → Json
  | num : Int → Json
  | str : String → Json
  | arr : List Json → Json
  | obj : List (String × Json) → Json

/-- JavaScript property access `j[k]` for object values: `undefined`
(`none`) when the key is missing or the value is not an object. -/
def Json.getField : Json → String → Option Json
  | .obj fields, k => (fields.find? (fun p => p.1 = k)).map (·.2)
  | _, _ => none

def Json.asStr : Json → Option String
  | .str s => some s
  | _ => none

/-- JavaScript truthiness for a JSON value (`null`, `false`, `0` and the
empty string are falsy; objects and arrays are always truthy). -/
def jsTruthy : Json → Bool
  | .null => false
  | .bool b => b
  | .num n => n != 0
  | .str s => s != ""
  | _ => true

/-- JavaScript truthiness of a possibly-`undefined` value. -/
def jsTruthyOpt : Option Json → Bool
  | none => false
  | some j => jsTruthy j

/- Rendering used for `JSON.stringify`.  The source pretty-prints with a
2-space indent and escapes string contents; no claim inspects the rendered
text, so this model renders compactly and leaves string contents as-is. -/
mutual
def Json.stringify : Json → String
  | .null => "null"
  | .bool true => "true"
  | .bool false => "false"
  | .num n => toString n
  | .str s => "\"" ++ s ++ "\""
  | .arr xs => "[" ++ stringifyList xs ++ "]"
  | .obj fs => "\x7b" ++ stringifyFields fs ++ "\x7d"

def stringifyList : List Json → String
  | [] => ""
  | [x] => Json.stringify x
  | x :: y :: xs => Json.stringify x ++ "," ++ stringifyList (y :: xs)

def stringifyFields : List (String × Json) → String
  | [] => ""
  | [(k, v)] => "\"" ++ k ++ "\":" ++ Json.stringify v
  | (k, v) :: f :: fs =>
      "\"" ++ k ++ "\":" ++ Json.stringify v ++ "," ++ stringifyFields (f :: fs)
end

/-! ## Error taxonomy (`src/src/errors/mcp-errors.ts`) -/

namespace MCPErrorCode

def PARSE_ERROR : Int := -32700
def INVALID_REQUEST : Int := -32600
def METHOD_NOT_FOUND : Int := -32601
def INVALID_PARAMS : Int := -32602
def INTERNAL_ERROR : Int := -32603
def INITIALIZATION_FAILED : Int := -32000
def TOOL_EXECUTION_ERROR : Int := -32001
def RESOURCE_NOT_FOUND : Int := -32002
def PERMISSION_DENIED : Int := -32003
def RATE_LIMIT_EXCEEDED : Int := -32004
def VALIDATION_ERROR : Int := -32005
def TIMEOUT_ERROR : Int := -32006

end MCPErrorCode

/-- `MCPError` from `mcp-errors.ts`: a code, a message, and an optional
structured `data` payload; `toJSON` serializes exactly these three
fields, so the same record doubles as the wire error payload. -/
structure MCPError where
  code : Int
  message : String
  data : Option Json

/-! ## Schema validation (`src/src/validation/schema-validator.ts`)

The validator delegates to the external `ajv` library, which is not part
of this repository.  Modelled from the spec: "The validator accepts a
JSON Schema (draft 2020-12 subset sufficient for object types with
`properties`, `required`, `type`, `minimum`, `maximum`, `default`,
`enum`)"; the model below covers an object-level schema with scalar
property subschemas (`type`, `minimum`, `maximum`), `required`, and a
top-level `type` — the subset every claim exercises.  Error records carry
`instancePath` and `message` like ajv's (ajv quotes the property name in
the `required` message; the quoting is immaterial to every claim). -/

inductive JsonType where
  | object | array | string | number | boolean | nullT
deriving DecidableEq

def JsonType.check : JsonType → Json → Bool
  | .object, .obj _ => true
  | .array, .arr _ => true
  | .string, .str _ => true
  | .number, .num _ => true
  | .boolean, .bool _ => true
  | .nullT, .null => true
  | _, _ => false

def JsonType.render : JsonType → String
  | .object => "object"
  | .array => "array"
  | .string => "string"
  | .number => "number"
  | .boolean => "boolean"
  | .nullT => "null"

structure PropSchema where
  jtype : Option JsonType
  minimum : Option Int
  maximum : Option Int
deriving DecidableEq

structure JsonSchema where
  jtype : Option JsonType
  properties : List (String × PropSchema)
  required : List String
deriving DecidableEq

structure AjvError where
  instancePath : String
  message : String
deriving DecidableEq

def validateProp (path : String) (ps : PropSchema) (j : Json) : List AjvError :=
  (match ps.jtype with
    | some t => if t.check j then [] else [⟨path, "must be " ++ t.render⟩]
    | none => []) ++
  (match ps.minimum, j with
    | some lo, .num n => if n < lo then [⟨path, "must be >= " ++ toString lo⟩] else []
    | _, _ => []) ++
  (match ps.maximum, j with
    | some hi, .num n => if hi < n then [⟨path, "must be <= " ++ toString hi⟩] else []
    | _, _ => [])

/-- Modelled from the spec: ajv validation of a top-level object schema.
Missing required properties are reported with the root instance path `""`
(as ajv does); present properties are checked against their subschema at
instance path `"/" ++ name`. -/
def validateJson (s : JsonSchema) (j : Json) : List AjvError :=
  (match s.jtype with
    | some t => if t.check j then [] else [⟨"", "must be " ++ t.render⟩]
    | none => []) ++
  (match j with
    | .obj fields =>
        (s.required.filter (fun r => ¬ fields.any (fun p => p.1 = r))).map
          (fun r => ⟨"", "must have required property " ++ r⟩) ++
        s.properties.flatMap (fun kp =>
          match fields.find? (fun p => p.1 = kp.1) with
          | some p => validateProp ("/" ++ kp.1) kp.2 p.2
          | none => [])
    | _ => [])

def renderAjvErrors (errs : List AjvError) : String :=
  String.intercalate ", " (errs.map (fun e => e.instancePath ++ " " ++ e.message))

def ajvErrorToJson (e : AjvError) : Json :=
  .obj [("instancePath", .str e.instancePath), ("message", .str e.message)]

/-- `SchemaValidator.validateToolInput`: compile the schema and validate;
on failure throw a `ValidationError` (code −32005) whose message joins the
per-error `instancePath`/`message` pairs and whose data carries the raw
errors and the input.  (The compilation-failure fallback branch of the
source is unreachable here: every `JsonSchema` value is well-formed.) -/
def validateToolInput (schema : JsonSchema) (input : Json) : Except MCPError Json :=
  let errs := validateJson schema input
  if errs.isEmpty then .ok input
  else .error ⟨MCPErrorCode.VALIDATION_ERROR,
    "Tool input validation failed: " ++ renderAjvErrors errs,
    some (.obj [("errors", .arr (errs.map ajvErrorToJson)), ("input", input)])⟩

/-! ## Registries (JavaScript `Map` semantics)

`MCPServer` keeps its tools/resources/prompts in JavaScript `Map`s.  A
`Map` preserves insertion order; `set` on a present key replaces the value
in place, `set` on an absent key appends, `delete` removes the entry and
is a no-op on absent keys.  The registries only ever hold distinct keys,
so an association list with first-occurrence update is an exact model. -/

def mapGet (m : List (String × α)) (k : String) : Option α :=
  (m.find? (fun p => p.1 = k)).map (·.2)

def mapSet : List (String × α) → String → α → List (String × α)
  | [], k, v => [(k, v)]
  | (k2, v2) :: rest, k, v =>
      if k2 = k then (k2, v) :: rest else (k2, v2) :: mapSet rest k v

def mapDelete (m : List (String × α)) (k : String) : List (String × α) :=
  m.filter (fun p => p.1 ≠ k)

def mapKeys (m : List (String × α)) : List String := m.map (·.1)

/-! ## Server data model (`src/src/client/mcp-client.ts`, class `MCPServer`) -/

/-- `MCPTool` definition: `{name, description, inputSchema}`. -/
structure MCPTool where
  name : String
  description : String
  inputSchema : Option JsonSchema

/-- A tool handler: `(params) => Promise<any>`, modelled as resolution to
a JSON value or rejection with an error message. -/
def ToolHandler := Json → Except String Json

structure ToolEntry where
  definition : MCPTool
  handler : ToolHandler

structure MCPResource where
  uri : String
  name : String
  description : String

structure ResourceResult where
  contents : Json
  mimeType : Option String

def ResourceHandler := String → Except String ResourceResult

structure ResourceEntry where
  definition : MCPResource
  handler : ResourceHandler

structure MCPPrompt where
  name : String
  description : String

def PromptHandler := Json → Except String Json

structure PromptEntry where
  definition : MCPPrompt
  handler : PromptHandler

structure ServerInfo where
  name : String
  version : String
deriving DecidableEq

inductive LogLevel where
  | debug | info | warn | error
deriving DecidableEq

/-- Character-wise upper-casing (`String.toUpperCase`); the library
`String.toUpper` is extensionally the same but is implemented through an
iterator that the kernel cannot evaluate. -/
def toUpperStr (s : String) : String := String.mk (s.data.map Char.toUpper)

/-- `LogLevel[level.toUpperCase()]` from `handleLoggingSetLevel`. -/
def parseLogLevel (s : String) : Option LogLevel :=
  let u := toUpperStr s
  if u = "DEBUG" then some .debug
  else if u = "INFO" then some .info
  else if u = "WARN" then some .warn
  else if u = "ERROR" then some .error
  else none

/-- The mutable fields of `MCPServer` the protocol machinery touches.
The pending-request table and the outbound `requestId` counter are part
of the same class in the source; they interact only with the outbound
machinery and are modelled separately below (`ClientState`). -/
structure ServerState where
  initialized : Bool
  logLevel : LogLevel
  tools : List (String × ToolEntry)
  resources : List (String × ResourceEntry)
  prompts : List (String × PromptEntry)
  serverInfo : ServerInfo

/-- Constructor defaults: `initialized = false`, empty registries, log
level INFO, `serverInfo = {name: 'MCP Server', version: '1.0.0'}`. -/
def initialServer : ServerState :=
  { initialized := false
    logLevel := .info
    tools := []
    resources := []
    prompts := []
    serverInfo := ⟨"MCP Server", "1.0.0"⟩ }

/-- A JSON-RPC id: the source preserves the wire type (string or number). -/
inductive MsgId where
  | num : Int → MsgId
  | str : String → MsgId
deriving DecidableEq

/-- Inbound JSON-RPC envelope (`MCPMessage`); the constant `jsonrpc`
field is omitted.  `none` models an absent (`undefined`) field. -/
structure MCPMessage where
  id? : Option MsgId
  method? : Option String
  params? : Option Json
  result? : Option Json
  error? : Option MCPError

/-- Outbound response envelope as built by `sendResult` / `sendError`. -/
structure OutMessage where
  id : MsgId
  result? : Option Json
  error? : Option MCPError

def mkResult (i : MsgId) (r : Json) : OutMessage := ⟨i, some r, none⟩

def mkError (i : MsgId) (e : MCPError) : OutMessage := ⟨i, none, some e⟩

/-! ### Capability negotiation -/

structure ServerCapabilities where
  logging : Bool
  toolsListChanged : Bool
  resourcesSubscribe : Bool
  resourcesListChanged : Bool
  promptsListChanged : Bool
deriving DecidableEq

/-- The fixed capability set `handleInitialize` builds: `{logging: {},
tools: {listChanged: true}, resources: {subscribe: true, listChanged:
true}, prompts: {listChanged: true}}` (`logging = true` records the
presence of the empty `logging` group). -/
def serverCapabilities : ServerCapabilities := ⟨true, true, true, true, true⟩

structure InitializeResult where
  protocolVersion : String
  capabilities : ServerCapabilities
  serverInfo : ServerInfo
deriving DecidableEq

/-- `MCPServer.handleInitialize`: logs the params and returns the fixed
protocol version, the fixed capability set and the configured
`serverInfo`; it reads nothing from `params` and writes no state. -/
def handleInitialize (st : ServerState) (_params : Option Json) : InitializeResult :=
  { protocolVersion := "2024-11-05"
    capabilities := serverCapabilities
    serverInfo := st.serverInfo }

def serverCapabilitiesJson : Json :=
  .obj [("logging", .obj []),
        ("tools", .obj [("listChanged", .bool true)]),
        ("resources", .obj [("subscribe", .bool true), ("listChanged", .bool true)]),
        ("prompts", .obj [("listChanged", .bool true)])]

def initializeResultJson (r : InitializeResult) : Json :=
  .obj [("protocolVersion", .str r.protocolVersion),
        ("capabilities", serverCapabilitiesJson),
        ("serverInfo", .obj [("name", .str r.serverInfo.name),
                             ("version", .str r.serverInfo.version)])]

/-! ### List serialization -/

def jsonTypeJson (t : JsonType) : Json := .str t.render

def propSchemaJson (p : PropSchema) : Json :=
  .obj ((match p.jtype with | some t => [("type", jsonTypeJson t)] | none => []) ++
        (match p.minimum with | some n => [("minimum", Json.num n)] | none => []) ++
        (match p.maximum with | some n => [("maximum", Json.num n)] | none => []))

def jsonSchemaJson (s : JsonSchema) : Json :=
  .obj ((match s.jtype with | some t => [("type", jsonTypeJson t)] | none => []) ++
        [("properties", .obj (s.properties.map (fun kp => (kp.1, propSchemaJson kp.2)))),
         ("required", .arr (s.required.map Json.str))])

def toolJson (t : MCPTool) : Json :=
  .obj ([("name", .str t.name), ("description", .str t.description)] ++
        (match t.inputSchema with
         | some s => [("inputSchema", jsonSchemaJson s)]
         | none => []))

def resourceJson (r : MCPResource) : Json :=
  .obj [("uri", .str r.uri), ("name", .str r.name), ("description", .str r.description)]

def promptJson (p : MCPPrompt) : Json :=
  .obj [("name", .str p.name), ("description", .str p.description)]

/-- `handleToolsList`: `{tools: [...definitions in registry order]}`.
Each handler below takes exactly the piece of `this` it reads (the
source methods take `this` and read one registry). -/
def handleToolsList (tools : List (String × ToolEntry)) : Json :=
  .obj [("tools", .arr (tools.map (fun e => toolJson e.2.definition)))]

def handleResourcesList (resources : List (String × ResourceEntry)) : Json :=
  .obj [("resources", .arr (resources.map (fun e => resourceJson e.2.definition)))]

def handlePromptsList (prompts : List (String × PromptEntry)) : Json :=
  .obj [("prompts", .arr (prompts.map (fun e => promptJson e.2.definition)))]

/-! ### Request handlers -/

/-- Display of a possibly-`undefined` value inside a template literal. -/
def jsDisplayStr (o : Option Json) : String :=
  match o with
  | some (.str s) => s
  | some j => j.stringify
  | none => "undefined"

def destructureError : MCPError :=
  ⟨MCPErrorCode.INTERNAL_ERROR, "Cannot destructure params", none⟩

/-- The value `result` is wrapped into:
`{content: [{type: 'text', text: ...}]}` (string results verbatim,
others via `JSON.stringify`). -/
def wrapToolResult (result : Json) : Json :=
  .obj [("content", .arr [
    .obj [("type", .str "text"),
          ("text", .str (match result with
                         | .str s => s
                         | j => j.stringify))]])]

/-- `MCPServer.handleToolsCall`.  The lookup failure is thrown outside
the `try`; the `try` block covers schema validation (only when the tool
has an `inputSchema` and `arguments` is truthy) and the handler call
(`handler(args || {})`), and its `catch` rethrows every failure — the
`ValidationError` included — as a `ToolExecutionError` (code −32001)
with data `{tool, arguments}`. -/
def handleToolsCall (tools : List (String × ToolEntry)) (params : Option Json) :
    Except MCPError Json :=
  match params with
  | none | some .null => .error destructureError
  | some p =>
    let nameOpt := (p.getField "name").bind Json.asStr
    let args := p.getField "arguments"
    match nameOpt.bind (mapGet tools) with
    | none =>
        .error ⟨MCPErrorCode.METHOD_NOT_FOUND,
          "Tool not found: " ++ jsDisplayStr (p.getField "name"), none⟩
    | some tool =>
        let attempt : Except MCPError Json := do
          (match tool.definition.inputSchema, args with
           | some sch, some a =>
               if jsTruthy a then do
                 let _ ← validateToolInput sch a
                 pure ()
               else pure ()
           | _, _ => pure ())
          let argv := match args with
            | some a => if jsTruthy a then a else .obj []
            | none => .obj []
          match tool.handler argv with
          | .ok r => pure (wrapToolResult r)
          | .error msg => .error ⟨MCPErrorCode.INTERNAL_ERROR, msg, none⟩
        match attempt with
        | .ok v => .ok v
        | .error e =>
            .error ⟨MCPErrorCode.TOOL_EXECUTION_ERROR,
              "Tool execution failed: " ++ e.message,
              some (.obj [("tool", .str (jsDisplayStr (p.getField "name"))),
                          ("arguments", args.getD .null)])⟩

/-- `MCPServer.handleResourcesRead`. -/
def handleResourcesRead (resources : List (String × ResourceEntry)) (params : Option Json) :
    Except MCPError Json :=
  match params with
  | none | some .null => .error destructureError
  | some p =>
    let uriOpt := (p.getField "uri").bind Json.asStr
    match uriOpt.bind (mapGet resources) with
    | none =>
        .error ⟨MCPErrorCode.RESOURCE_NOT_FOUND,
          "Resource not found: " ++ jsDisplayStr (p.getField "uri"), none⟩
    | some res =>
        let uri := uriOpt.getD ""
        match res.handler uri with
        | .ok r =>
            .ok (.obj [("contents", .arr [
              .obj [("uri", .str uri),
                    ("mimeType", .str (match r.mimeType with
                                       | some m => if m = "" then "text/plain" else m
                                       | none => "text/plain")),
                    ("text", .str (match r.contents with
                                   | .str s => s
                                   | j => j.stringify))]])])
        | .error msg =>
            .error ⟨MCPErrorCode.INTERNAL_ERROR,
              "Failed to read resource: " ++ msg,
              some (.obj [("uri", .str uri)])⟩

/-- `MCPServer.handlePromptsGet`: the handler's output is returned
verbatim. -/
def handlePromptsGet (prompts : List (String × PromptEntry)) (params : Option Json) :
    Except MCPError Json :=
  match params with
  | none | some .null => .error destructureError
  | some p =>
    let nameOpt := (p.getField "name").bind Json.asStr
    let args := p.getField "arguments"
    match nameOpt.bind (mapGet prompts) with
    | none =>
        .error ⟨MCPErrorCode.METHOD_NOT_FOUND,
          "Prompt not found: " ++ jsDisplayStr (p.getField "name"), none⟩
    | some pr =>
        let argv := match args with
          | some a => if jsTruthy a then a else .obj []
          | none => .obj []
        match pr.handler argv with
        | .ok r => .ok r
        | .error msg =>
            .error ⟨MCPErrorCode.INTERNAL_ERROR,
              "Prompt execution failed: " ++ msg,
              some (.obj [("prompt", .str (jsDisplayStr (p.getField "name"))),
                          ("arguments", args.getD .null)])⟩

/-- The params side of `MCPServer.handleLoggingSetLevel`: an unknown
level string is logged and ignored (`ok none` — no level change); a
non-string `level` raises a `TypeError` on `.toUpperCase()`, which the
dispatcher's catch converts into an `InternalError` response when the
message carried an id. -/
def loggingLevelOf (params : Option Json) : Except MCPError (Option LogLevel) :=
  match params with
  | none | some .null => .error destructureError
  | some p =>
    match p.getField "level" with
    | some (.str s) => .ok (parseLogLevel s)
    | _ => .error ⟨MCPErrorCode.INTERNAL_ERROR,
        "level.toUpperCase is not a function", none⟩

/-- `MCPServer.handleLoggingSetLevel`: set the log level when the params
carried a known level. -/
def handleLoggingSetLevel (st : ServerState) (params : Option Json) :
    Except MCPError ServerState :=
  (loggingLevelOf params).map (fun lv? =>
    match lv? with
    | some lv => { st with logLevel := lv }
    | none => st)

/-! ### Dispatch -/

/-- The `switch (method)` of `MCPServer.handleRequest`.  A `some`
result is sent back when the message carried an id; `none` models the
early `return` of the two notification-style cases (`initialized`,
`logging/setLevel`), which skip the response even for messages that do
carry an id. -/
def dispatchMethod (st : ServerState) (m : String) (params : Option Json) :
    Except MCPError (ServerState × Option Json) :=
  if m = "initialize" then
    .ok (st, some (initializeResultJson (handleInitialize st params)))
  else if m = "initialized" then
    .ok ({ st with initialized := true }, none)
  else if m = "tools/list" then
    .ok (st, some (handleToolsList st.tools))
  else if m = "tools/call" then
    (handleToolsCall st.tools params).map (fun r => (st, some r))
  else if m = "resources/list" then
    .ok (st, some (handleResourcesList st.resources))
  else if m = "resources/read" then
    (handleResourcesRead st.resources params).map (fun r => (st, some r))
  else if m = "prompts/list" then
    .ok (st, some (handlePromptsList st.prompts))
  else if m = "prompts/get" then
    (handlePromptsGet st.prompts params).map (fun r => (st, some r))
  else if m = "logging/setLevel" then
    (handleLoggingSetLevel st params).map (fun st2 => (st2, none))
  else
    .error ⟨MCPErrorCode.METHOD_NOT_FOUND, "Method not found: " ++ m, none⟩

/-- `MCPServer.handleRequest`: dispatch, then send exactly one
`sendResult` when a result was produced and the message has an id, no
response for the notification-style cases, and one `sendError` when the
dispatch threw and the message has an id. -/
def handleRequest (st : ServerState) (msg : MCPMessage) : ServerState × List OutMessage :=
  match dispatchMethod st (msg.method?.getD "") msg.params? with
  | .ok (st2, some r) =>
      (st2, match msg.id? with
            | some i => [mkResult i r]
            | none => [])
  | .ok (st2, none) => (st2, [])
  | .error e =>
      (st, match msg.id? with
           | some i => [mkError i e]
           | none => [])

/-- `MCPServer.handleMessage` classification: id+result and id+error go
to the response correlator (modelled separately on `ClientState`, where
it emits no outbound message); a truthy `method` goes to
`handleRequest`; anything else is dropped. -/
def handleMessage (st : ServerState) (msg : MCPMessage) : ServerState × List OutMessage :=
  if msg.id?.isSome && msg.result?.isSome then (st, [])
  else if msg.id?.isSome && msg.error?.isSome then (st, [])
  else if msg.method?.getD "" ≠ "" then handleRequest st msg
  else (st, [])

/-! ### Registration API -/

def addTool (st : ServerState) (d : MCPTool) (h : ToolHandler) : ServerState :=
  { st with tools := mapSet st.tools d.name ⟨d, h⟩ }

def removeTool (st : ServerState) (n : String) : ServerState :=
  { st with tools := mapDelete st.tools n }

def addResource (st : ServerState) (d : MCPResource) (h : ResourceHandler) : ServerState :=
  { st with resources := mapSet st.resources d.uri ⟨d, h⟩ }

def removeResource (st : ServerState) (u : String) : ServerState :=
  { st with resources := mapDelete st.resources u }

def addPrompt (st : ServerState) (d : MCPPrompt) (h : PromptHandler) : ServerState :=
  { st with prompts := mapSet st.prompts d.name ⟨d, h⟩ }

def removePrompt (st : ServerState) (n : String) : ServerState :=
  { st with prompts := mapDelete st.prompts n }

/-! ## Transport reader (`src/src/transport/stdio.ts`)

The reader state is the string buffer plus the closed flag.  Chunks are
modelled as lists of characters; the JSON parser the transport feeds each
trimmed line to (`JSON.parse`) is an external parameter `parse` — the
framing behaviour is independent of it. -/

inductive TransportEvent where
  | message : Json → TransportEvent
  | parseError : List Char → TransportEvent

structure TransportState where
  buffer : List Char
  closed : Bool

def initTransport : TransportState := ⟨[], false⟩

/-- Characters removed by JavaScript `String.prototype.trim` (the source
only ever meets ASCII whitespace on a line boundary). -/
def isWsChar (c : Char) : Bool :=
  c = ' ' ∨ c = '\t' ∨ c = '\r' ∨ c = '\n' ∨ c = '\x0b' ∨ c = '\x0c'

def trimChars (l : List Char) : List Char :=
  ((l.dropWhile isWsChar).reverse.dropWhile isWsChar).reverse

/-- Split a buffer into its complete (newline-terminated) lines and the
trailing remainder, exactly as `processBuffer`'s `indexOf('\n')` loop
does. -/
def splitCompleteLines : List Char → List (List Char) × List Char
  | [] => ([], [])
  | c :: cs =>
      if c = '\n' then
        let r := splitCompleteLines cs
        ([] :: r.1, r.2)
      else
        match splitCompleteLines cs with
        | (l :: ls, rest) => ((c :: l) :: ls, rest)
        | ([], rest) => ([], c :: rest)

/-- `processLine` applied to one complete line: trim, skip when empty,
otherwise parse and emit one `message` event, or one `PARSE_ERROR` per
failed parse (carrying the trimmed line). -/
def lineEvents (parse : List Char → Option Json) (l : List Char) : List TransportEvent :=
  let t := trimChars l
  if t = [] then []
  else match parse t with
    | some j => [.message j]
    | none => [.parseError t]

/-- `handleData`: append the chunk to the buffer, then drain every
complete line (`processBuffer`).  A closed transport ignores input. -/
def handleData (parse : List Char → Option Json) (st : TransportState)
    (chunk : List Char) : TransportState × List TransportEvent :=
  if st.closed then (st, [])
  else
    let r := splitCompleteLines (st.buffer ++ chunk)
    ({ st with buffer := r.2 }, r.1.flatMap (lineEvents parse))

/-- Feeding a sequence of chunks one read at a time. -/
def feedChunks (parse : List Char → Option Json) (st : TransportState) :
    List (List Char) → TransportState × List TransportEvent
  | [] => (st, [])
  | c :: cs =>
      let r := handleData parse st c
      let rest := feedChunks parse r.1 cs
      (rest.1, r.2 ++ rest.2)

def joinLines (ls : List (List Char)) : List Char :=
  (ls.map (fun l => l ++ ['\n'])).flatten

/-! ## Outbound requests and the pending table
(`MCPServer.sendRequest` / `handleResponse` / `shutdown`)

The pending table holds, per id, the resolver pair and the timer handle;
resolution and rejection are modelled as emitted `Outcome`s, and the
timer by the explicit `fireTimeout` step, enabled exactly while the entry
(and with it the live timer) is still in the table — `clearTimeout` is
the removal of the entry. -/

/-- The value a pending caller is rejected with: the `MCPError` cases of
the source carry a code, while `shutdown` rejects with a plain
`new Error(...)` that has no JSON-RPC code. -/
inductive RejectReason where
  | mcpErr : MCPError → RejectReason
  | plainErr : String → RejectReason

inductive Outcome where
  | resolved : Nat → Json → Outcome
  | rejected : Nat → RejectReason → Outcome

structure PendingEntry where
  id : Nat
  timeoutMs : Nat
deriving DecidableEq

structure ClientState where
  requestId : Nat
  pending : List PendingEntry

def initialClient : ClientState := ⟨0, []⟩

structure OutRequest where
  id : Nat
  method : String
  params : Option Json

/-- `sendRequest(method, params, timeout = 30000)`: allocate
`++this.requestId` as the id, insert a pending entry with its deadline
timer, and write the envelope.  `none` for `timeout` models a call site
that omits the argument. -/
def sendRequest (st : ClientState) (method : String) (params : Option Json)
    (timeout : Option Nat) : ClientState × OutRequest :=
  let id := st.requestId + 1
  ({ requestId := id,
     pending := st.pending ++ [⟨id, timeout.getD 30000⟩] },
   ⟨id, method, params⟩)

/-- The deadline timer firing for `id`: enabled while the entry is still
pending (otherwise the timer was cleared); it deletes the entry and
rejects the caller with `MCPError(TIMEOUT_ERROR, 'Request timeout')`. -/
def fireTimeout (st : ClientState) (id : Nat) : ClientState × List Outcome :=
  if st.pending.any (fun e => e.id = id) then
    ({ st with pending := st.pending.filter (fun e => e.id ≠ id) },
     [.rejected id (.mcpErr ⟨MCPErrorCode.TIMEOUT_ERROR, "Request timeout", none⟩)])
  else (st, [])

/-- `handleResponse` for a success response: when the id is pending,
clear its timer, remove it and resolve the caller; otherwise the
response is dropped. -/
def handleResponseC (st : ClientState) (id : Nat) (result : Json) :
    ClientState × List Outcome :=
  if st.pending.any (fun e => e.id = id) then
    ({ st with pending := st.pending.filter (fun e => e.id ≠ id) },
     [.resolved id result])
  else (st, [])

/-- `MCPServer.shutdown`: for every pending entry clear its timer and
reject with the plain `new Error('Server shutting down')`, then clear
the table. -/
def shutdownC (st : ClientState) : ClientState × List Outcome :=
  ({ st with pending := [] },
   st.pending.map (fun e => .rejected e.id (.plainErr "Server shutting down")))

/-- Operations a run of the outbound machinery interleaves. -/
inductive COp where
  | send : String → Option Json → Option Nat → COp
  | fire : Nat → COp
  | resp : Nat → Json → COp
  | shut : COp

/-- One step; the second component lists the id assigned when the step
was a `send`. -/
def cstep (st : ClientState) : COp → ClientState × List Nat
  | .send m p t => let r := sendRequest st m p t; (r.1, [r.2.id])
  | .fire id => ((fireTimeout st id).1, [])
  | .resp id j => ((handleResponseC st id j).1, [])
  | .shut => ((shutdownC st).1, [])

/-- Run a sequence of operations, collecting the assigned ids in order. -/
def runOps (st : ClientState) : List COp → ClientState × List Nat
  | [] => (st, [])
  | op :: ops =>
      let r := cstep st op
      let rest := runOps r.1 ops
      (rest.1, r.2 ++ rest.2)

/-! ## Authentication middleware (`src/src/middleware/auth.ts`) -/

structure AuthConfig where
  apiKeys : Option (List String)
  allowAnonymous : Bool
  customValidator : Option (String → Bool)

/-- JavaScript truthiness of a possibly-absent string (the empty string
is falsy). -/
def jsTruthyStr : Option String → Bool
  | none => false
  | some s => s != ""

/-- `authHeader.split(' ')` on the character list (the library
`String.splitOn` is extensionally the same but does not evaluate in the
kernel): split at every single space, keeping empty segments. -/
def splitOnSpace : List Char → List (List Char)
  | [] => [[]]
  | c :: cs =>
      if c = ' ' then [] :: splitOnSpace cs
      else
        match splitOnSpace cs with
        | h :: t => (c :: h) :: t
        | [] => [[c]]

/-- `AuthMiddleware.extractToken`: a two-part `bearer <token>` header
(scheme compared case-insensitively) yields the token, anything else is
used verbatim. -/
def extractToken (authHeader : String) : String :=
  match splitOnSpace authHeader.data with
  | [p0, p1] =>
      if p0.map Char.toLower = "bearer".data then String.mk p1 else authHeader
  | _ => authHeader

/-- `AuthMiddleware.authenticate`.  `authorization` is the
`headers?.authorization` field; the `customValidator`'s promise is
modelled by its resolved boolean. -/
def authenticate (cfg : AuthConfig) (authorization : Option String) :
    Except MCPError Unit :=
  if cfg.allowAnonymous && !jsTruthyStr authorization then .ok ()
  else if !jsTruthyStr authorization then
    .error ⟨MCPErrorCode.PERMISSION_DENIED, "Authentication required", none⟩
  else
    let token := extractToken (authorization.getD "")
    match cfg.customValidator with
    | some v =>
        if v token then .ok ()
        else .error ⟨MCPErrorCode.PERMISSION_DENIED, "Invalid authentication token", none⟩
    | none =>
        if (cfg.apiKeys.getD []).contains token then .ok ()
        else .error ⟨MCPErrorCode.PERMISSION_DENIED,
          "Invalid authentication credentials", none⟩

/-! ## Registry operation sequences (for the registry invariants) -/

inductive ToolOp where
  | add : MCPTool → ToolHandler → ToolOp
  | remove : String → ToolOp

def applyToolOp (st : ServerState) : ToolOp → ServerState
  | .add d h => addTool st d h
  | .remove n => removeTool st n

def applyToolOps (st : ServerState) (ops : List ToolOp) : ServerState :=
  ops.foldl applyToolOp st

/-- The definition the history leaves under key `k`: the most recently
added entry for `k` not followed by a removal of `k`. -/
def lastTool (ops : List ToolOp) (k : String) : Option ToolEntry :=
  ops.foldl
    (fun acc op =>
      match op with
      | .add d h => if d.name = k then some ⟨d, h⟩ else acc
      | .remove n => if n = k then none else acc)
    none

/-! ## Helper lemmas about the registry map model -/

lemma mapGet_nil (k : String) : mapGet ([] : List (String × α)) k = none := rfl

lemma mapGet_cons (k3 : String) (v3 : α) (rest : List (String × α)) (k2 : String) :
    mapGet ((k3, v3) :: rest) k2 = if k3 = k2 then some v3 else mapGet rest k2 := by
  simp only [mapGet, List.find?]
  by_cases h : k3 = k2 <;> simp [h]

lemma mapKeys_cons (k3 : String) (v3 : α) (rest : List (String × α)) :
    mapKeys ((k3, v3) :: rest) = k3 :: mapKeys rest := rfl

lemma mapDelete_cons (k3 : String) (v3 : α) (rest : List (String × α)) (k : String) :
    mapDelete ((k3, v3) :: rest) k
      = if k3 = k then mapDelete rest k else (k3, v3) :: mapDelete rest k := by
  simp only [mapDelete, List.filter_cons]
  by_cases h : k3 = k <;> simp [h]

lemma mapGet_mapSet (m : List (String × α)) (k k2 : String) (v : α) :
    mapGet (mapSet m k v) k2 = if k = k2 then some v else mapGet m k2 := by
  induction m with
  | nil => simp [mapSet, mapGet_cons]
  | cons p rest ih =>
      obtain ⟨k3, v3⟩ := p
      by_cases h3 : k3 = k
      · subst h3
        by_cases h : k3 = k2 <;> simp [mapSet, mapGet_cons, h]
      · by_cases h32 : k3 = k2
        · subst h32
          have hk : k ≠ k3 := fun hh => h3 hh.symm
          simp [mapSet, h3, mapGet_cons, hk]
        · simp [mapSet, h3, mapGet_cons, h32, ih]

lemma mapGet_mapDelete (m : List (String × α)) (k k2 : String) :
    mapGet (mapDelete m k) k2 = if k = k2 then none else mapGet m k2 := by
  induction m with
  | nil => simp [mapDelete, mapGet_nil]
  | cons p rest ih =>
      obtain ⟨k3, v3⟩ := p
      by_cases h3 : k3 = k
      · subst h3
        by_cases h : k3 = k2
        · subst h
          simp [mapDelete_cons, ih]
        · simp [mapDelete_cons, mapGet_cons, h, ih]
      · by_cases h32 : k3 = k2
        · subst h32
          have hk : k ≠ k3 := fun hh => h3 hh.symm
          simp [mapDelete_cons, h3, mapGet_cons, hk]
        · simp [mapDelete_cons, h3, mapGet_cons, h32, ih]

lemma mapDelete_of_absent (m : List (String × α)) (k : String)
    (h : mapGet m k = none) : mapDelete m k = m := by
  induction m with
  | nil => rfl
  | cons p rest ih =>
      obtain ⟨k3, v3⟩ := p
      rw [mapGet_cons] at h
      by_cases h3 : k3 = k
      · simp [h3] at h
      · simp [h3] at h
        simp [mapDelete_cons, h3, ih h]

lemma mapKeys_mapSet_mem (m : List (String × α)) (k : String) (v : α)
    (h : k ∈ mapKeys m) : mapKeys (mapSet m k v) = mapKeys m := by
  induction m with
  | nil => simp [mapKeys] at h
  | cons p rest ih =>
      obtain ⟨k3, v3⟩ := p
      by_cases h3 : k3 = k
      · simp [mapSet, h3, mapKeys_cons]
      · rw [mapKeys_cons] at h
        rcases List.mem_cons.mp h with h | h
        · exact absurd h.symm h3
        · simp [mapSet, h3, mapKeys_cons, ih h]

lemma mapKeys_mapSet_not_mem (m : List (String × α)) (k : String) (v : α)
    (h : k ∉ mapKeys m) : mapKeys (mapSet m k v) = mapKeys m ++ [k] := by
  induction m with
  | nil => simp [mapSet, mapKeys]
  | cons p rest ih =>
      obtain ⟨k3, v3⟩ := p
      rw [mapKeys_cons] at h
      have h1 : k3 ≠ k := fun hk => h (hk ▸ List.mem_cons_self k3 (mapKeys rest))
      have h2 : k ∉ mapKeys rest := fun hk => h (List.mem_cons_of_mem k3 hk)
      simp [mapSet, h1, mapKeys_cons, ih h2]

lemma mapKeys_mapDelete (m : List (String × α)) (k : String) :
    mapKeys (mapDelete m k) = (mapKeys m).filter (fun s => s ≠ k) := by
  induction m with
  | nil => rfl
  | cons p rest ih =>
      obtain ⟨k3, v3⟩ := p
      by_cases h3 : k3 = k <;>
        simp [mapDelete_cons, mapKeys_cons, h3, List.filter_cons, ih, decide_not]

/-! ## Claim C9: handleInitialize is a constant, effect-free negotiation -/

/-- C9: `handleInitialize` returns the same `InitializeResult` for every
`params` value — protocol version `"2024-11-05"`, the fixed capability
set, and the configured `serverInfo` — and dispatching an `initialize`
request leaves the endpoint state (in particular the `initialized` flag
and the registries) unchanged while emitting exactly that result. -/
theorem handleInitialize_constant_pure (st : ServerState) (p p2 : Option Json) (i : MsgId) :
    handleInitialize st p = handleInitialize st p2
    ∧ handleInitialize st p
        = ⟨"2024-11-05", serverCapabilities, st.serverInfo⟩
    ∧ (handleRequest st ⟨some i, some "initialize", p, none, none⟩).1 = st
    ∧ (handleRequest st ⟨some i, some "initialize", p, none, none⟩).2
        = [mkResult i (initializeResultJson (handleInitialize st p))] := by
  refine ⟨rfl, rfl, ?_, ?_⟩ <;> rfl

/-! ## Claim C10: customValidator short-circuits apiKeys -/

/-- C10: with a `customValidator` configured and a non-empty
`authorization` header present, `authenticate` succeeds exactly when the
validator accepts the extracted token; the result is the same for every
`apiKeys` list (the key list is never consulted), and a rejected token
produces `PermissionDenied` (code −32003). -/
theorem authenticate_customValidator (cfg : AuthConfig) (v : String → Bool) (s : String)
    (hv : cfg.customValidator = some v) (hs : s ≠ "") :
    (authenticate cfg (some s) = .ok () ↔ v (extractToken s) = true)
    ∧ (∀ keys, authenticate { cfg with apiKeys := keys } (some s)
         = authenticate cfg (some s))
    ∧ (v (extractToken s) = false →
        authenticate cfg (some s)
          = .error ⟨MCPErrorCode.PERMISSION_DENIED, "Invalid authentication token", none⟩) := by
  have hts : jsTruthyStr (some s) = true := by simp [jsTruthyStr, hs]
  refine ⟨?_, ?_, ?_⟩
  · cases hb : v (extractToken s) <;>
      simp [authenticate, hts, hv, hb]
  · intro keys
    cases hb : v (extractToken s) <;>
      simp [authenticate, hts, hv, hb]
  · intro hb
    simp [authenticate, hts, hv, hb]

def authCfgEx : AuthConfig := ⟨some ["secret-key"], false, some (fun t => t == "tok")⟩

/-- Witness for C10 at a concrete configuration and bearer header. -/
theorem authenticate_customValidator_witness :
    authCfgEx.customValidator = some (fun t => t == "tok")
    ∧ "Bearer tok" ≠ ""
    ∧ authenticate authCfgEx (some "Bearer tok") = .ok () :=
  ⟨rfl, by decide,
    ((authenticate_customValidator authCfgEx (fun t => t == "tok") "Bearer tok"
        rfl (by decide)).1).mpr rfl⟩

/-! ## Claim C5: what shutdown does to the pending table -/

def stShutEx : ClientState := ⟨1, [⟨1, 30000⟩]⟩

/-- C5 counterexample: with one pending entry, `shutdown` rejects it with
the plain `Error('Server shutting down')` — not with a `TimeoutError`
(code −32006) whose message is `"shutting down"` as the claim states —
while it does empty the table. -/
theorem shutdown_rejects_with_plain_error :
    shutdownC stShutEx
      = (⟨1, []⟩, [.rejected 1 (.plainErr "Server shutting down")])
    ∧ RejectReason.plainErr "Server shutting down"
        ≠ RejectReason.mcpErr ⟨MCPErrorCode.TIMEOUT_ERROR, "shutting down", none⟩ :=
  ⟨rfl, fun h => nomatch h⟩

/-- C5 amended: when the endpoint shuts down, every entry still in the
pending table is rejected with a plain `Error` whose message is
`"Server shutting down"` (carrying no JSON-RPC error code), each entry's
timer is cleared together with the entry, and the pending table is left
empty. -/
theorem shutdown_clears_pending (st : ClientState) :
    (shutdownC st).1.pending = []
    ∧ (shutdownC st).2
        = st.pending.map (fun e => .rejected e.id (.plainErr "Server shutting down")) :=
  ⟨rfl, rfl⟩

/-! ## Claim C6: outbound request ids, default timeout, timer firing -/

lemma cstep_requestId_le (st : ClientState) (op : COp) :
    st.requestId ≤ (cstep st op).1.requestId := by
  cases op with
  | send m p t => simp [cstep, sendRequest]
  | fire id =>
      simp only [cstep, fireTimeout]
      split <;> simp
  | resp id j =>
      simp only [cstep, handleResponseC]
      split <;> simp
  | shut => simp [cstep, shutdownC]

lemma runOps_requestId_le (ops : List COp) :
    ∀ st : ClientState, st.requestId ≤ (runOps st ops).1.requestId := by
  induction ops with
  | nil => intro st; simp [runOps]
  | cons op ops ih =>
      intro st
      simp only [runOps]
      exact le_trans (cstep_requestId_le st op) (ih (cstep st op).1)

lemma runOps_ids_gt (ops : List COp) :
    ∀ st : ClientState, ∀ i ∈ (runOps st ops).2, st.requestId < i := by
  induction ops with
  | nil => intro st i hi; simp [runOps] at hi
  | cons op ops ih =>
      intro st i hi
      simp only [runOps, List.mem_append] at hi
      rcases hi with hi | hi
      · cases op with
        | send m p t =>
            simp [cstep, sendRequest] at hi
            omega
        | fire id => simp [cstep] at hi
        | resp id j => simp [cstep] at hi
        | shut => simp [cstep] at hi
      · exact lt_of_le_of_lt (cstep_requestId_le st op) (ih (cstep st op).1 i hi)

lemma runOps_ids_pairwise (ops : List COp) :
    ∀ st : ClientState, ((runOps st ops).2).Pairwise (· < ·) := by
  induction ops with
  | nil => intro st; simp [runOps]
  | cons op ops ih =>
      intro st
      simp only [runOps]
      cases op with
      | send m p t =>
          have hsingleton : (cstep st (.send m p t)).2 = [st.requestId + 1] := rfl
          rw [hsingleton, List.singleton_append, List.pairwise_cons]
          refine ⟨fun i hi => ?_, ih _⟩
          have := runOps_ids_gt ops (cstep st (.send m p t)).1 i hi
          have hreq : (cstep st (.send m p t)).1.requestId = st.requestId + 1 := rfl
          omega
      | fire id =>
          have : (cstep st (.fire id)).2 = [] := rfl
          rw [this, List.nil_append]; exact ih _
      | resp id j =>
          have : (cstep st (.resp id j)).2 = [] := rfl
          rw [this, List.nil_append]; exact ih _
      | shut =>
          have : (cstep st .shut).2 = [] := rfl
          rw [this, List.nil_append]; exact ih _

/-- C6: across any run of the outbound machinery the ids assigned by
`sendRequest` are strictly increasing in order of assignment; an omitted
timeout argument defaults to 30000 ms; a deadline timer that fires while
its entry is pending removes the entry and rejects the caller with
`MCPError` code −32006 (`TimeoutError`, message `'Request timeout'`);
and after the timer fired, a response for that id resolves nothing. -/
theorem sendRequest_ids_and_timeout :
    (∀ ops, ((runOps initialClient ops).2).Pairwise (· < ·))
    ∧ (∀ (st : ClientState) (m : String) (p : Option Json),
        sendRequest st m p none
          = ({ requestId := st.requestId + 1,
               pending := st.pending ++ [⟨st.requestId + 1, 30000⟩] },
             ⟨st.requestId + 1, m, p⟩))
    ∧ (∀ (st : ClientState) (id : Nat),
        st.pending.any (fun e => e.id = id) = true →
        fireTimeout st id
          = ({ st with pending := st.pending.filter (fun e => e.id ≠ id) },
             [.rejected id (.mcpErr ⟨MCPErrorCode.TIMEOUT_ERROR, "Request timeout", none⟩)]))
    ∧ (∀ (st : ClientState) (id : Nat) (j : Json),
        handleResponseC (fireTimeout st id).1 id j = ((fireTimeout st id).1, [])) := by
  refine ⟨fun ops => runOps_ids_pairwise ops initialClient, fun st m p => rfl, ?_, ?_⟩
  · intro st id h
    simp [fireTimeout, h]
  · intro st id j
    by_cases h : st.pending.any (fun e => e.id = id) = true
    · have hnone :
          ((st.pending.filter (fun e => e.id ≠ id)).any (fun e => e.id = id)) = false := by
        simp only [List.any_eq_false, List.mem_filter, decide_eq_true_eq]
        rintro e ⟨_, he⟩
        simpa using he
      simp [fireTimeout, handleResponseC, h, hnone]
    · have h2 : st.pending.any (fun e => e.id = id) = false := by
        simpa using h
      simp [fireTimeout, handleResponseC, h2]

def clientStEx : ClientState := ⟨1, [⟨1, 500⟩]⟩

/-- Witness for C6 at a concrete pending table. -/
theorem sendRequest_ids_and_timeout_witness :
    clientStEx.pending.any (fun e => e.id = 1) = true
    ∧ fireTimeout clientStEx 1
        = ({ clientStEx with pending := clientStEx.pending.filter (fun e => e.id ≠ 1) },
           [.rejected 1 (.mcpErr ⟨MCPErrorCode.TIMEOUT_ERROR, "Request timeout", none⟩)])
    ∧ clientStEx.pending.filter (fun e => e.id ≠ 1) = [] :=
  ⟨by decide,
   sendRequest_ids_and_timeout.2.2.1 clientStEx 1 (by decide),
   by decide⟩

/-! ## Bridge: the responses a dispatch outcome produces -/

/-- What `handleRequest` sends for a given dispatch outcome (keeping only
the response part of the outcome) and request id. -/
def responsesFor (idOpt : Option MsgId) : Except MCPError (Option Json) → List OutMessage
  | .ok (some j) =>
      match idOpt with
      | some i => [mkResult i j]
      | none => []
  | .ok none => []
  | .error e =>
      match idOpt with
      | some i => [mkError i e]
      | none => []

lemma handleRequest_responses (st : ServerState) (msg : MCPMessage) :
    (handleRequest st msg).2
      = responsesFor msg.id?
          ((dispatchMethod st (msg.method?.getD "") msg.params?).map (fun x => x.2)) := by
  unfold handleRequest
  cases h : dispatchMethod st (msg.method?.getD "") msg.params? with
  | ok v =>
      obtain ⟨s, o⟩ := v
      cases o <;> cases msg.id? <;> simp [responsesFor, Except.map]
  | error e =>
      cases msg.id? <;> simp [responsesFor, Except.map]

set_option maxHeartbeats 1000000 in
/-- The response part of a dispatch never depends on the `initialized`
flag: every handler reads only the registries, the log level and
`serverInfo`. -/
lemma dispatch_resp_indep (st : ServerState) (b : Bool) (m : String) (p : Option Json) :
    ((dispatchMethod { st with initialized := b } m p).map (fun x => x.2))
      = ((dispatchMethod st m p).map (fun x => x.2)) := by
  have ht : handleToolsCall ({ st with initialized := b } : ServerState).tools p
      = handleToolsCall st.tools p := rfl
  have hr : handleResourcesRead ({ st with initialized := b } : ServerState).resources p
      = handleResourcesRead st.resources p := rfl
  have hp : handlePromptsGet ({ st with initialized := b } : ServerState).prompts p
      = handlePromptsGet st.prompts p := rfl
  simp only [dispatchMethod, handleLoggingSetLevel]
  split_ifs
  case _ => rfl
  case _ => rfl
  case _ => rfl
  case _ => rw [ht]; cases handleToolsCall st.tools p <;> rfl
  case _ => rfl
  case _ => rw [hr]; cases handleResourcesRead st.resources p <;> rfl
  case _ => rfl
  case _ => rw [hp]; cases handlePromptsGet st.prompts p <;> rfl
  case _ => cases loggingLevelOf p <;> rfl
  case _ => rfl

/-! ## Claim C1: there is no initialization gate -/

/-- C1 counterexample: on a freshly constructed server
(`initialized = false`, so initialization has not completed) a
`tools/list` request is answered with a normal result — the (empty) tool
list — and no emitted response carries error code −32000
(`InitializationFailed`), contradicting the claimed gating. -/
theorem tools_list_before_initialize_succeeds :
    initialServer.initialized = false
    ∧ (handleRequest initialServer ⟨some (.num 1), some "tools/list", none, none, none⟩).2
        = [mkResult (.num 1) (Json.obj [("tools", Json.arr [])])]
    ∧ ((handleRequest initialServer
          ⟨some (.num 1), some "tools/list", none, none, none⟩).2.all
        (fun r => !(match r.error? with
                    | some e => e.code = MCPErrorCode.INITIALIZATION_FAILED
                    | none => false))) = true :=
  ⟨rfl, rfl, rfl⟩

/-- C1 amended: the server performs no initialization gating at all —
the responses emitted for any inbound request are independent of whether
initialization has completed, and in particular a `tools/list` request
received at any point (also before `initialize`) is answered with its
ordinary result, never with `InitializationFailed` (−32000). -/
theorem handleRequest_ignores_initialized :
    (∀ (st : ServerState) (b : Bool) (msg : MCPMessage),
        (handleRequest { st with initialized := b } msg).2 = (handleRequest st msg).2)
    ∧ (∀ (st : ServerState) (i : MsgId),
        (handleRequest st ⟨some i, some "tools/list", none, none, none⟩).2
          = [mkResult i (handleToolsList st.tools)]) := by
  refine ⟨fun st b msg => ?_, fun st i => rfl⟩
  rw [handleRequest_responses, handleRequest_responses]
  simp only [dispatch_resp_indep]

/-! ## Claim C7: registry last-writer-wins, idempotent removal, order -/

lemma applyToolOps_mapGet (ops : List ToolOp) :
    ∀ (st : ServerState) (k : String),
      mapGet (applyToolOps st ops).tools k
        = ops.foldl
            (fun acc op =>
              match op with
              | .add d h => if d.name = k then some ⟨d, h⟩ else acc
              | .remove n => if n = k then none else acc)
            (mapGet st.tools k) := by
  induction ops with
  | nil => intro st k; rfl
  | cons op ops ih =>
      intro st k
      cases op with
      | add d h =>
          have hstep :
              applyToolOps st (ToolOp.add d h :: ops) = applyToolOps (addTool st d h) ops := rfl
          rw [hstep, ih, List.foldl_cons]
          congr 1
          simp only [addTool, mapGet_mapSet]
      | remove n =>
          have hstep :
              applyToolOps st (ToolOp.remove n :: ops) = applyToolOps (removeTool st n) ops := rfl
          rw [hstep, ih, List.foldl_cons]
          congr 1
          simp only [removeTool, mapGet_mapDelete]

/-- C7: for every sequence of `addTool` / `removeTool` operations the
registry maps each key to the most recently registered definition for
that key (or is absent if last removed); removing an absent key is a
no-op; `mapSet` keeps registry order on replacement and appends fresh
keys at the end, `mapDelete` keeps the relative order of the surviving
keys; and `tools/list` answers with the registered definitions in
registry (insertion) order.  The analogous resource/prompt registries
use the same `mapSet` / `mapDelete` / `mapGet` operations on their own
key. -/
theorem registry_last_writer_wins :
    (∀ (ops : List ToolOp) (k : String),
        mapGet (applyToolOps initialServer ops).tools k = lastTool ops k)
    ∧ (∀ (st : ServerState) (n : String),
        mapGet st.tools n = none → removeTool st n = st)
    ∧ (∀ (m : List (String × ToolEntry)) (k : String) (v : ToolEntry),
        (k ∈ mapKeys m → mapKeys (mapSet m k v) = mapKeys m)
        ∧ (k ∉ mapKeys m → mapKeys (mapSet m k v) = mapKeys m ++ [k]))
    ∧ (∀ (m : List (String × ToolEntry)) (k : String),
        mapKeys (mapDelete m k) = (mapKeys m).filter (fun s => s ≠ k))
    ∧ (∀ (st : ServerState) (i : MsgId),
        (handleRequest st ⟨some i, some "tools/list", none, none, none⟩).2
          = [mkResult i (.obj [("tools",
              .arr (st.tools.map (fun e => toolJson e.2.definition)))])]) := by
  refine ⟨?_, ?_, ?_, ?_, fun st i => rfl⟩
  · intro ops k
    exact applyToolOps_mapGet ops initialServer k
  · intro st n h
    have hd : mapDelete st.tools n = st.tools := mapDelete_of_absent st.tools n h
    unfold removeTool
    rw [hd]
  · intro m k v
    exact ⟨mapKeys_mapSet_mem m k v, mapKeys_mapSet_not_mem m k v⟩
  · intro m k
    exact mapKeys_mapDelete m k

def toolA : MCPTool := ⟨"alpha", "first", none⟩
def toolB : MCPTool := ⟨"beta", "second", none⟩
def toolA2 : MCPTool := ⟨"alpha", "first again", none⟩
def hNoop : ToolHandler := fun _ => .ok .null

def toolOpsEx : List ToolOp :=
  [.add toolA hNoop, .add toolB hNoop, .add toolA2 hNoop, .remove "beta"]

/-- Witness for C7 on a concrete add/add/replace/remove history. -/
theorem registry_last_writer_wins_witness :
    mapGet (applyToolOps initialServer toolOpsEx).tools "alpha" = lastTool toolOpsEx "alpha"
    ∧ lastTool toolOpsEx "alpha" = some ⟨toolA2, hNoop⟩
    ∧ mapGet initialServer.tools "ghost" = none
    ∧ removeTool initialServer "ghost" = initialServer :=
  ⟨registry_last_writer_wins.1 toolOpsEx "alpha", rfl, rfl,
   registry_last_writer_wins.2.1 initialServer "ghost" rfl⟩

/-! ## Claim C2: how a tools/call validation failure reaches the wire -/

/-- The `add` tool of the spec scenarios: object schema with numeric
properties `a`, `b`, both required. -/
def addSchema : JsonSchema :=
  ⟨some .object,
   [("a", ⟨some .number, none, none⟩), ("b", ⟨some .number, none, none⟩)],
   ["a", "b"]⟩

def addToolDef : MCPTool := ⟨"add", "Add two numbers", some addSchema⟩

def addHandler : ToolHandler := fun _ => .ok (Json.str "ok")

def stWithAdd : ServerState := addTool initialServer addToolDef addHandler

def callMissingB : MCPMessage :=
  ⟨some (.num 1), some "tools/call",
   some (.obj [("name", .str "add"), ("arguments", .obj [("a", .num 5)])]),
   none, none⟩

/-- C2 counterexample: calling the registered `add` tool with
`arguments = {a: 5}` (required `b` missing) produces a single error
response whose code is −32001 (`ToolExecutionError`) — not −32005
(`ValidationError`) as claimed: `handleToolsCall`'s catch-all rethrows
the validator's `ValidationError` as a `ToolExecutionError` whose data is
`{tool, arguments}` (no instance path). -/
theorem tools_call_validation_surfaces_32001 :
    ((handleRequest stWithAdd callMissingB).2.map (fun r => r.error?.map (·.code)))
      = [some MCPErrorCode.TOOL_EXECUTION_ERROR]
    ∧ MCPErrorCode.TOOL_EXECUTION_ERROR ≠ MCPErrorCode.VALIDATION_ERROR :=
  ⟨rfl, by decide⟩

lemma toolsCall_validation_fails (tools : List (String × ToolEntry))
    (d : MCPTool) (h : ToolHandler) (sch : JsonSchema) (a : Json)
    (hs : d.inputSchema = some sch) (ht : jsTruthy a = true)
    (hv : validateJson sch a ≠ []) :
    handleToolsCall (mapSet tools d.name ⟨d, h⟩)
        (some (.obj [("name", .str d.name), ("arguments", a)]))
      = .error ⟨MCPErrorCode.TOOL_EXECUTION_ERROR,
          "Tool execution failed: "
            ++ ("Tool input validation failed: " ++ renderAjvErrors (validateJson sch a)),
          some (.obj [("tool", .str d.name), ("arguments", a)])⟩ := by
  have hlookup : mapGet (mapSet tools d.name ⟨d, h⟩) d.name = some ⟨d, h⟩ := by
    rw [mapGet_mapSet]; simp
  have hempty : (validateJson sch a).isEmpty = false := by
    cases hvj : validateJson sch a with
    | nil => exact absurd hvj hv
    | cons x xs => rfl
  simp only [handleToolsCall, Json.getField, List.find?, Json.asStr]
  simp only [validateToolInput]
  simp [hlookup, hs, ht, hempty, jsDisplayStr, Json.getField, bind, Except.bind]

/-- C2 amended: for every registered tool with an `inputSchema`, a
`tools/call` whose (truthy) `arguments` fail validation is answered with
exactly one error response carrying code −32001 (`ToolExecutionError`)
whose message embeds the validation diagnostic (the joined
`instancePath`/`message` pairs) and whose data is `{tool, arguments}`;
the tool handler is not invoked (the response is the same for every
handler). -/
theorem tools_call_validation_error_response (st : ServerState)
    (d : MCPTool) (h h2 : ToolHandler) (sch : JsonSchema) (a : Json) (i : MsgId)
    (hs : d.inputSchema = some sch) (ht : jsTruthy a = true)
    (hv : validateJson sch a ≠ []) :
    (handleRequest (addTool st d h)
        ⟨some i, some "tools/call",
         some (.obj [("name", .str d.name), ("arguments", a)]), none, none⟩).2
      = [mkError i ⟨MCPErrorCode.TOOL_EXECUTION_ERROR,
          "Tool execution failed: "
            ++ ("Tool input validation failed: " ++ renderAjvErrors (validateJson sch a)),
          some (.obj [("tool", .str d.name), ("arguments", a)])⟩]
    ∧ (handleRequest (addTool st d h)
        ⟨some i, some "tools/call",
         some (.obj [("name", .str d.name), ("arguments", a)]), none, none⟩).2
      = (handleRequest (addTool st d h2)
        ⟨some i, some "tools/call",
         some (.obj [("name", .str d.name), ("arguments", a)]), none, none⟩).2 := by
  have key : ∀ hh : ToolHandler,
      (handleRequest (addTool st d hh)
        ⟨some i, some "tools/call",
         some (.obj [("name", .str d.name), ("arguments", a)]), none, none⟩).2
      = [mkError i ⟨MCPErrorCode.TOOL_EXECUTION_ERROR,
          "Tool execution failed: "
            ++ ("Tool input validation failed: " ++ renderAjvErrors (validateJson sch a)),
          some (.obj [("tool", .str d.name), ("arguments", a)])⟩] := by
    intro hh
    rw [handleRequest_responses]
    have hd : dispatchMethod (addTool st d hh) "tools/call"
        (some (.obj [("name", .str d.name), ("arguments", a)]))
        = (handleToolsCall (addTool st d hh).tools
            (some (.obj [("name", .str d.name), ("arguments", a)]))).map
              (fun r => (addTool st d hh, some r)) := rfl
    have hcall := toolsCall_validation_fails st.tools d hh sch a hs ht hv
    have htools : (addTool st d hh).tools = mapSet st.tools d.name ⟨d, hh⟩ := rfl
    simp only [Option.getD, hd, htools, hcall, Except.map, responsesFor]
  exact ⟨key h, (key h).trans (key h2).symm⟩

def argsMissingB : Json := .obj [("a", .num 5)]

/-- Witness for C2 on the concrete `add` tool and `{a: 5}`. -/
theorem tools_call_validation_error_response_witness :
    addToolDef.inputSchema = some addSchema
    ∧ jsTruthy argsMissingB = true
    ∧ validateJson addSchema argsMissingB ≠ []
    ∧ (handleRequest (addTool initialServer addToolDef addHandler)
        ⟨some (.num 9), some "tools/call",
         some (.obj [("name", .str "add"), ("arguments", argsMissingB)]), none, none⟩).2
      = [mkError (.num 9) ⟨MCPErrorCode.TOOL_EXECUTION_ERROR,
          "Tool execution failed: "
            ++ ("Tool input validation failed: "
                ++ renderAjvErrors (validateJson addSchema argsMissingB)),
          some (.obj [("tool", .str "add"), ("arguments", argsMissingB)])⟩] :=
  ⟨rfl, rfl, by decide,
   (tools_call_validation_error_response initialServer addToolDef addHandler addHandler
      addSchema argsMissingB (.num 9) rfl rfl (by decide)).1⟩

/-! ## Claim C8: absent `arguments` versus `arguments = {}` -/

/-- C8 counterexample: for the registered `add` tool (whose schema has
required properties) a `tools/call` with `arguments` absent succeeds —
validation is skipped because `undefined` is falsy — while the same call
with `arguments = {}` (truthy, hence validated) is answered with an
error (code −32001 wrapping the validation failure).  The two are not
equivalent as claimed. -/
theorem tools_call_absent_vs_empty_args :
    ((handleRequest stWithAdd
        ⟨some (.num 1), some "tools/call",
         some (.obj [("name", .str "add")]), none, none⟩).2.map
      (fun r => r.error?.map (·.code))) = [none]
    ∧ ((handleRequest stWithAdd
        ⟨some (.num 1), some "tools/call",
         some (.obj [("name", .str "add"), ("arguments", .obj [])]), none, none⟩).2.map
      (fun r => r.error?.map (·.code))) = [some MCPErrorCode.TOOL_EXECUTION_ERROR] :=
  ⟨rfl, rfl⟩

/-- The outcome `handleToolsCall` produces once it runs the handler:
wrap a resolved value, or wrap a rejection into `ToolExecutionError`
with data `{tool, arguments}` (`argsJ` is the raw `arguments` value,
`Json.null` standing for `undefined`). -/
def toolCallOutcome (name : String) (argsJ : Json) : Except String Json → Except MCPError Json
  | .ok r => .ok (wrapToolResult r)
  | .error m =>
      .error ⟨MCPErrorCode.TOOL_EXECUTION_ERROR, "Tool execution failed: " ++ m,
        some (.obj [("tool", .str name), ("arguments", argsJ)])⟩

lemma toolsCall_absent_args (tools : List (String × ToolEntry)) (d : MCPTool) (h : ToolHandler) :
    handleToolsCall (mapSet tools d.name ⟨d, h⟩) (some (.obj [("name", .str d.name)]))
      = toolCallOutcome d.name .null (h (.obj [])) := by
  have hlookup : mapGet (mapSet tools d.name ⟨d, h⟩) d.name = some ⟨d, h⟩ := by
    rw [mapGet_mapSet]; simp
  cases hI : d.inputSchema <;> cases hh : h (.obj []) <;>
    simp [handleToolsCall, Json.getField, List.find?, Json.asStr, hlookup, hI, hh,
      toolCallOutcome, bind, Except.bind, jsDisplayStr, pure, Except.pure]

lemma toolsCall_empty_args_valid (tools : List (String × ToolEntry))
    (d : MCPTool) (h : ToolHandler) (sch : JsonSchema)
    (hs : d.inputSchema = some sch) (hok : validateJson sch (.obj []) = []) :
    handleToolsCall (mapSet tools d.name ⟨d, h⟩)
        (some (.obj [("name", .str d.name), ("arguments", .obj [])]))
      = toolCallOutcome d.name (.obj []) (h (.obj [])) := by
  have hlookup : mapGet (mapSet tools d.name ⟨d, h⟩) d.name = some ⟨d, h⟩ := by
    rw [mapGet_mapSet]; simp
  cases hh : h (.obj []) <;>
    simp [handleToolsCall, Json.getField, List.find?, Json.asStr, hlookup, hs, hh,
      validateToolInput, hok, toolCallOutcome, bind, Except.bind, jsDisplayStr,
      pure, Except.pure, jsTruthy]

/-- C8 amended: a `tools/call` with `arguments` absent skips schema
validation entirely (it behaves as if the tool had no `inputSchema`) and
invokes the handler with `{}`; a call with `arguments = {}` validates
`{}` against the schema — when `{}` satisfies it, both calls return the
same wrapped handler result, and when the schema has unmet required
properties the absent-arguments call still succeeds (handler invoked)
while the `{}` call is answered with the −32001 error wrapping the
validation failure. -/
theorem tools_call_empty_args_semantics :
    (∀ (st : ServerState) (d : MCPTool) (h : ToolHandler) (sch : JsonSchema),
        d.inputSchema = some sch →
        handleToolsCall (addTool st d h).tools (some (.obj [("name", .str d.name)]))
          = handleToolsCall (addTool st { d with inputSchema := none } h).tools
              (some (.obj [("name", .str d.name)])))
    ∧ (∀ (st : ServerState) (d : MCPTool) (h : ToolHandler) (sch : JsonSchema)
          (i : MsgId) (r : Json),
        d.inputSchema = some sch → validateJson sch (.obj []) = [] →
        h (.obj []) = .ok r →
        (handleRequest (addTool st d h)
            ⟨some i, some "tools/call",
             some (.obj [("name", .str d.name)]), none, none⟩).2
          = [mkResult i (wrapToolResult r)]
        ∧ (handleRequest (addTool st d h)
            ⟨some i, some "tools/call",
             some (.obj [("name", .str d.name), ("arguments", .obj [])]), none, none⟩).2
          = [mkResult i (wrapToolResult r)])
    ∧ (∀ (st : ServerState) (d : MCPTool) (h : ToolHandler) (sch : JsonSchema)
          (i : MsgId) (r : Json),
        d.inputSchema = some sch → validateJson sch (.obj []) ≠ [] →
        h (.obj []) = .ok r →
        (handleRequest (addTool st d h)
            ⟨some i, some "tools/call",
             some (.obj [("name", .str d.name)]), none, none⟩).2
          = [mkResult i (wrapToolResult r)]
        ∧ ((handleRequest (addTool st d h)
            ⟨some i, some "tools/call",
             some (.obj [("name", .str d.name), ("arguments", .obj [])]), none, none⟩).2.map
              (fun rr => rr.error?.map (·.code)))
          = [some MCPErrorCode.TOOL_EXECUTION_ERROR]) := by
  have habs : ∀ (st : ServerState) (d : MCPTool) (h : ToolHandler),
      handleToolsCall (addTool st d h).tools (some (.obj [("name", .str d.name)]))
        = toolCallOutcome d.name .null (h (.obj [])) :=
    fun st d h => toolsCall_absent_args st.tools d h
  have habsReq : ∀ (st : ServerState) (d : MCPTool) (h : ToolHandler) (i : MsgId) (r : Json),
      h (.obj []) = .ok r →
      (handleRequest (addTool st d h)
          ⟨some i, some "tools/call",
           some (.obj [("name", .str d.name)]), none, none⟩).2
        = [mkResult i (wrapToolResult r)] := by
    intro st d h i r hr
    rw [handleRequest_responses]
    have hd : dispatchMethod (addTool st d h) "tools/call"
        (some (.obj [("name", .str d.name)]))
        = (handleToolsCall (addTool st d h).tools
            (some (.obj [("name", .str d.name)]))).map
              (fun r => (addTool st d h, some r)) := rfl
    simp only [Option.getD, hd, habs st d h, hr, toolCallOutcome, Except.map, responsesFor]
  refine ⟨?_, ?_, ?_⟩
  · intro st d h sch hs
    have h2 : handleToolsCall (addTool st { d with inputSchema := none } h).tools
        (some (.obj [("name", .str d.name)]))
        = toolCallOutcome d.name .null (h (.obj [])) :=
      toolsCall_absent_args st.tools { d with inputSchema := none } h
    rw [habs st d h, h2]
  · intro st d h sch i r hs hok hr
    refine ⟨habsReq st d h i r hr, ?_⟩
    rw [handleRequest_responses]
    have hd : dispatchMethod (addTool st d h) "tools/call"
        (some (.obj [("name", .str d.name), ("arguments", .obj [])]))
        = (handleToolsCall (addTool st d h).tools
            (some (.obj [("name", .str d.name), ("arguments", .obj [])]))).map
              (fun r => (addTool st d h, some r)) := rfl
    have hcall := toolsCall_empty_args_valid st.tools d h sch hs hok
    have htools : (addTool st d h).tools = mapSet st.tools d.name ⟨d, h⟩ := rfl
    simp only [Option.getD, hd, htools, hcall, hr, toolCallOutcome, Except.map, responsesFor]
  · intro st d h sch i r hs hbad hr
    refine ⟨habsReq st d h i r hr, ?_⟩
    rw [handleRequest_responses]
    have hd : dispatchMethod (addTool st d h) "tools/call"
        (some (.obj [("name", .str d.name), ("arguments", .obj [])]))
        = (handleToolsCall (addTool st d h).tools
            (some (.obj [("name", .str d.name), ("arguments", .obj [])]))).map
              (fun r => (addTool st d h, some r)) := rfl
    have hcall := toolsCall_validation_fails st.tools d h sch (.obj []) hs rfl hbad
    have htools : (addTool st d h).tools = mapSet st.tools d.name ⟨d, h⟩ := rfl
    simp only [Option.getD, hd, htools, hcall, Except.map, responsesFor]
    rfl

/-- Witness for C8 on the concrete `add` tool. -/
theorem tools_call_empty_args_semantics_witness :
    addToolDef.inputSchema = some addSchema
    ∧ validateJson addSchema (.obj []) ≠ []
    ∧ addHandler (.obj []) = .ok (Json.str "ok")
    ∧ (handleRequest (addTool initialServer addToolDef addHandler)
        ⟨some (.num 3), some "tools/call",
         some (.obj [("name", .str "add")]), none, none⟩).2
      = [mkResult (.num 3) (wrapToolResult (Json.str "ok"))] :=
  ⟨rfl, by decide, rfl,
   (tools_call_empty_args_semantics.2.2 initialServer addToolDef addHandler addSchema
      (.num 3) (Json.str "ok") rfl (by decide) rfl).1⟩

/-! ## Claim C3: how many responses one inbound message produces -/

/-- C3 counterexample: a message that carries BOTH an id and the method
`initialized` is a request by the claim's classification, yet the
endpoint emits zero responses for it — the `initialized` arm returns
before the response-sending step regardless of the id. -/
theorem request_with_initialized_method_gets_no_response :
    (some (MsgId.num 7)).isSome = true
    ∧ (handleMessage initialServer
        ⟨some (.num 7), some "initialized", none, none, none⟩).2 = [] :=
  ⟨rfl, rfl⟩

/-- C3 amended: for an inbound message with a non-empty `method` and no
`result`/`error` fields, the endpoint emits exactly one response when the
message carries an id — except for the methods `initialized` and
`logging/setLevel`, which are handled notification-style: `initialized`
always produces zero responses, and `logging/setLevel` produces zero
when its params carry a level (or an unknown level string) and one error
response when reading the level throws; without an id it emits zero
responses for every method. -/
theorem single_response_per_request (st : ServerState) (msg : MCPMessage) (m : String)
    (hm : msg.method? = some m) (hne : m ≠ "")
    (hr : msg.result? = none) (he : msg.error? = none) :
    (handleMessage st msg).2.length
      = (match msg.id? with
         | none => 0
         | some _ =>
             if m = "initialized" then 0
             else if m = "logging/setLevel" then
               (match loggingLevelOf msg.params? with
                | .ok _ => 0
                | .error _ => 1)
             else 1) := by
  have hmsg : handleMessage st msg = handleRequest st msg := by
    simp [handleMessage, hm, hr, he, hne]
  have hresp := handleRequest_responses st msg
  rw [hmsg, hresp, hm]
  simp only [Option.getD_some]
  cases hid : msg.id? with
  | none =>
      cases hdm : dispatchMethod st m msg.params? with
      | ok v =>
          obtain ⟨s2, o⟩ := v
          cases o <;> simp [responsesFor, Except.map]
      | error e => simp [responsesFor, Except.map]
  | some i =>
      simp only [dispatchMethod, handleLoggingSetLevel]
      split_ifs <;> subst_vars <;>
        first
          | (simp_all [responsesFor, Except.map]; done)
          | (cases handleToolsCall st.tools msg.params? <;>
              simp [responsesFor, Except.map] <;> done)
          | (cases handleResourcesRead st.resources msg.params? <;>
              simp [responsesFor, Except.map] <;> done)
          | (cases handlePromptsGet st.prompts msg.params? <;>
              simp [responsesFor, Except.map] <;> done)
          | (cases hlv : loggingLevelOf msg.params? <;>
              simp [responsesFor, Except.map, hlv])

/-- Witness for C3: a `tools/list` request with an id receives exactly
one response. -/
theorem single_response_per_request_witness :
    (handleMessage initialServer
        ⟨some (.num 1), some "tools/list", none, none, none⟩).2.length
      = (match (some (MsgId.num 1) : Option MsgId) with
         | none => 0
         | some _ =>
             if "tools/list" = "initialized" then 0
             else if "tools/list" = "logging/setLevel" then
               (match loggingLevelOf none with
                | .ok _ => 0
                | .error _ => 1)
             else 1) :=
  single_response_per_request initialServer
    ⟨some (.num 1), some "tools/list", none, none, none⟩ "tools/list"
    rfl (by decide) rfl rfl

/-! ## Claim C4: framing is chunk-boundary independent -/

lemma splitCompleteLines_nil : splitCompleteLines [] = ([], []) := rfl

lemma splitCompleteLines_cons_nl (cs : List Char) :
    splitCompleteLines ('\n' :: cs)
      = ([] :: (splitCompleteLines cs).1, (splitCompleteLines cs).2) := by
  simp [splitCompleteLines]

lemma splitCompleteLines_cons (c : Char) (cs : List Char) (hc : c ≠ '\n') :
    splitCompleteLines (c :: cs)
      = (match splitCompleteLines cs with
         | (l :: ls, rest) => ((c :: l) :: ls, rest)
         | ([], rest) => ([], c :: rest)) := by
  simp [splitCompleteLines, hc]

lemma splitCompleteLines_append (x y : List Char) :
    splitCompleteLines (x ++ y)
      = ((splitCompleteLines x).1
           ++ (splitCompleteLines ((splitCompleteLines x).2 ++ y)).1,
         (splitCompleteLines ((splitCompleteLines x).2 ++ y)).2) := by
  induction x with
  | nil => simp [splitCompleteLines_nil]
  | cons c cs ih =>
      by_cases hc : c = '\n'
      · subst hc
        rw [List.cons_append, splitCompleteLines_cons_nl, splitCompleteLines_cons_nl, ih]
        simp
      · rcases hS : splitCompleteLines cs with ⟨ls, r⟩
        rw [List.cons_append, splitCompleteLines_cons c (cs ++ y) hc,
          splitCompleteLines_cons c cs hc, ih, hS]
        cases ls with
        | nil =>
            simp only [List.nil_append]
            rw [List.cons_append, splitCompleteLines_cons c (r ++ y) hc]
        | cons l ls2 => simp

lemma splitCompleteLines_no_newline (l : List Char) (h : ('\n' : Char) ∉ l) :
    splitCompleteLines l = ([], l) := by
  induction l with
  | nil => rfl
  | cons c cs ih =>
      have hc : c ≠ '\n' := fun hcc => h (hcc ▸ List.mem_cons_self c cs)
      have hcs : ('\n' : Char) ∉ cs := fun hm => h (List.mem_cons_of_mem c hm)
      rw [splitCompleteLines_cons c cs hc, ih hcs]

lemma splitCompleteLines_rest_no_newline (l : List Char) :
    ('\n' : Char) ∉ (splitCompleteLines l).2 := by
  induction l with
  | nil => simp [splitCompleteLines_nil]
  | cons c cs ih =>
      by_cases hc : c = '\n'
      · subst hc
        simpa [splitCompleteLines_cons_nl] using ih
      · rcases hS : splitCompleteLines cs with ⟨ls, r⟩
        rw [hS] at ih
        rw [splitCompleteLines_cons c cs hc, hS]
        cases ls with
        | nil =>
            simp only []
            intro hm
            rcases List.mem_cons.mp hm with hm | hm
            · exact hc hm.symm
            · exact ih hm
        | cons l2 ls2 => simpa using ih

lemma splitCompleteLines_join (l : List Char) :
    joinLines (splitCompleteLines l).1 ++ (splitCompleteLines l).2 = l := by
  induction l with
  | nil => rfl
  | cons c cs ih =>
      by_cases hc : c = '\n'
      · subst hc
        rw [splitCompleteLines_cons_nl]
        simp only [joinLines, List.map_cons, List.flatten_cons, List.nil_append,
          List.cons_append, List.append_assoc] at ih ⊢
        rw [ih]
      · rcases hS : splitCompleteLines cs with ⟨ls, r⟩
        rw [hS] at ih
        rw [splitCompleteLines_cons c cs hc, hS]
        cases ls with
        | nil =>
            simp only [joinLines, List.map_nil, List.flatten_nil, List.nil_append] at ih ⊢
            rw [ih]
        | cons l2 ls2 =>
            simp only [joinLines, List.map_cons, List.flatten_cons, List.cons_append,
              List.append_assoc] at ih ⊢
            rw [ih]

lemma splitCompleteLines_line (l : List Char) (h : ('\n' : Char) ∉ l) :
    splitCompleteLines (l ++ ['\n']) = ([l], []) := by
  induction l with
  | nil => simp [splitCompleteLines_cons_nl, splitCompleteLines_nil]
  | cons c cs ih =>
      have hc : c ≠ '\n' := fun hcc => h (hcc ▸ List.mem_cons_self c cs)
      have hcs : ('\n' : Char) ∉ cs := fun hm => h (List.mem_cons_of_mem c hm)
      rw [List.cons_append, splitCompleteLines_cons c (cs ++ ['\n']) hc, ih hcs]

lemma handleData_append (parse : List Char → Option Json) (st : TransportState)
    (a b : List Char) (hcl : st.closed = false) :
    handleData parse st (a ++ b)
      = ((handleData parse (handleData parse st a).1 b).1,
         (handleData parse st a).2 ++ (handleData parse (handleData parse st a).1 b).2) := by
  simp only [handleData, hcl, Bool.false_eq_true, if_false]
  rw [← List.append_assoc, splitCompleteLines_append (st.buffer ++ a) b]
  simp [List.flatMap_append]

lemma feedChunks_flatten (parse : List Char → Option Json) (chunks : List (List Char)) :
    ∀ st : TransportState, st.closed = false → ('\n' : Char) ∉ st.buffer →
      feedChunks parse st chunks = handleData parse st chunks.flatten := by
  induction chunks with
  | nil =>
      rintro ⟨buf, cl⟩ hcl hnl
      subst hcl
      simp [feedChunks, handleData, splitCompleteLines_no_newline buf hnl]
  | cons c cs ih =>
      intro st hcl hnl
      have h1 : (handleData parse st c).1.closed = false := by
        simp [handleData, hcl]
      have h2 : ('\n' : Char) ∉ (handleData parse st c).1.buffer := by
        simp only [handleData, hcl, Bool.false_eq_true, if_false]
        exact splitCompleteLines_rest_no_newline _
      simp only [feedChunks]
      rw [ih (handleData parse st c).1 h1 h2, List.flatten_cons,
        handleData_append parse st c cs.flatten hcl]

/-- C4: the reader's framing.  (i) Feeding any chunk sequence is
equivalent to feeding the concatenation in one read — chunk boundaries
are invisible; (ii) the buffer decomposes into its complete lines plus a
newline-free remainder, so the bytes after the last `'\n'` stay buffered
verbatim; (iii) one read appends the chunk to the buffer and emits, in
arrival order, the events of each complete line — one `message` per
trimmed non-empty line the parser accepts, empty lines skipped, one
`PARSE_ERROR` per line it rejects — keeping the unterminated tail as the
new buffer; (iv) in particular one JSON line split across three reads
yields exactly one `message` event and no `PARSE_ERROR`. -/
theorem transport_framing (parse : List Char → Option Json) :
    (∀ (st : TransportState) (chunks : List (List Char)),
        st.closed = false → ('\n' : Char) ∉ st.buffer →
        feedChunks parse st chunks = handleData parse st chunks.flatten)
    ∧ (∀ buf : List Char,
        joinLines (splitCompleteLines buf).1 ++ (splitCompleteLines buf).2 = buf
        ∧ ('\n' : Char) ∉ (splitCompleteLines buf).2)
    ∧ (∀ (st : TransportState) (chunk : List Char),
        st.closed = false →
        (handleData parse st chunk).2
          = (splitCompleteLines (st.buffer ++ chunk)).1.flatMap (lineEvents parse)
        ∧ (handleData parse st chunk).1.buffer
          = (splitCompleteLines (st.buffer ++ chunk)).2)
    ∧ (∀ (l c1 c2 c3 : List Char) (j : Json),
        c1 ++ c2 ++ c3 = l ++ ['\n'] → ('\n' : Char) ∉ l →
        trimChars l ≠ [] → parse (trimChars l) = some j →
        (feedChunks parse initTransport [c1, c2, c3]).2 = [.message j]) := by
  refine ⟨fun st chunks => feedChunks_flatten parse chunks st, ?_, ?_, ?_⟩
  · intro buf
    exact ⟨splitCompleteLines_join buf, splitCompleteLines_rest_no_newline buf⟩
  · intro st chunk hcl
    constructor <;> simp [handleData, hcl]
  · intro l c1 c2 c3 j hsplit hnl htrim hparse
    rw [feedChunks_flatten parse [c1, c2, c3] initTransport rfl (by simp [initTransport])]
    have hflat : ([c1, c2, c3] : List (List Char)).flatten = l ++ ['\n'] := by
      simp only [List.flatten_cons, List.flatten_nil, List.append_nil]
      rw [← List.append_assoc, hsplit]
    rw [hflat]
    simp [handleData, initTransport, splitCompleteLines_line l hnl,
      lineEvents, htrim, hparse]

def parseW : List Char → Option Json :=
  fun t => if t = ['a'] then some (Json.str "A") else none

/-- Witness for C4: the line `a` plus terminator, split over three
reads, yields exactly the one `message` event. -/
theorem transport_framing_witness :
    (([] : List Char) ++ ['a'] ++ ['\n']) = ['a'] ++ ['\n']
    ∧ ('\n' : Char) ∉ ['a']
    ∧ trimChars ['a'] ≠ []
    ∧ parseW (trimChars ['a']) = some (Json.str "A")
    ∧ (feedChunks parseW initTransport [[], ['a'], ['\n']]).2
        = [.message (Json.str "A")] :=
  ⟨rfl, by decide, by decide, rfl,
   (transport_framing parseW).2.2.2 ['a'] [] ['a'] ['\n'] (Json.str "A")
     rfl (by decide) (by decide) rfl⟩
